import Mathlib

/-!
Verification development for the estrois S3 proxy cache (Go).

Shallow embedding conventions:
- Go `[]byte` is `List Nat` (one `Nat` per byte).
- Go `int64` quantities (sizes, the cache-size counter) are `Int`: the values
  that occur stay far below 2^63, while the counter can legitimately go
  negative through `DeleteFromCache`, so `Int` carries the exact semantics.
- Go `time.Time` values are `Int` instants; `t1.Before t2` is `t1 < t2` and
  `t1.After t2` is `t1 > t2`.
- A Go `map[K]V` consulted only through lookup is a function `K → Option V`;
  the mutable `sync.Map` backing the cache is an association list mutated in
  iteration order (the source's iteration order is unspecified, the list
  order stands in for one such order).
- Operations are embedded sequentially: each Go function that mutates the
  process-wide cache becomes a state-passing function on `CacheState`.
-/

namespace Estrois

/-! ## Go string helpers (strings.Split / Trim / TrimPrefix / HasPrefix)

Implemented over `List Char` so that every concrete evaluation reduces by
plain structural recursion. -/

/-- Test whether `p` is an initial segment of `s`
(Go `strings.HasPrefix` over the underlying runes). -/
def listStartsWith : List Char → List Char → Bool
  | _, [] => true
  | [], _ :: _ => false
  | a :: as, b :: bs => a = b && listStartsWith as bs

/-- Split a character list on a separator character; Go semantics:
`Split("", sep) = [""]` and empty fields are kept. -/
def splitOnCharList (c : Char) : List Char → List (List Char)
  | [] => [[]]
  | x :: xs =>
    if x = c then [] :: splitOnCharList c xs
    else
      match splitOnCharList c xs with
      | h :: t => (x :: h) :: t
      | [] => [[x]]

/-- Go `strings.Split(s, string(c))` for a one-character separator. -/
def goSplitChar (s : String) (c : Char) : List String :=
  (splitOnCharList c s.toList).map (fun l => String.mk l)

/-- Go `strings.Trim(s, string(c))` for a one-character cutset. -/
def goTrim (s : String) (c : Char) : String :=
  String.mk (((s.toList.dropWhile (· = c)).reverse.dropWhile (· = c)).reverse)

/-- Go `strings.HasPrefix`. -/
def goHasPre (s p : String) : Bool :=
  listStartsWith s.toList p.toList

/-- Go `strings.TrimPrefix`. -/
def goTrimPre (s p : String) : String :=
  if goHasPre s p then String.mk (s.toList.drop p.toList.length) else s

/-! ## gzip codec

The repository's `CompressData`/`DecompressData` delegate to the Go standard
library's `compress/gzip`, an external collaborator whose code is not part of
this repository. Modelled from the spec: a reversible gzip codec — a gzip
member (RFC 1952 header, DEFLATE stream, CRC-32 + length trailer) whose
DEFLATE stream uses stored (uncompressed) blocks, with the reader parsing the
same framing and verifying the trailer, exactly the checks Go's
`gzip.NewReader`/`io.ReadAll` perform on this writer's output. -/

/-- Two little-endian bytes of a 16-bit value. -/
def u16le (n : Nat) : List Nat :=
  [n % 256, n / 256 % 256]

/-- Four little-endian bytes of a 32-bit value. -/
def u32le (n : Nat) : List Nat :=
  [n % 256, n / 256 % 256, n / 65536 % 256, n / 16777216 % 256]

/-- One bit-step of the reflected CRC-32 computation (polynomial 0xEDB88320). -/
def crc32Step (c : Nat) : Nat :=
  if c % 2 = 1 then Nat.xor (c / 2) 3988292384 else c / 2

/-- Fold one byte into a CRC-32 accumulator (eight bit-steps). -/
def crc32Byte (c b : Nat) : Nat :=
  crc32Step^[8] (Nat.xor c (b % 256))

/-- CRC-32 of a byte list, as written into the gzip trailer. -/
def crc32 (data : List Nat) : Nat :=
  Nat.xor (data.foldl crc32Byte 4294967295) 4294967295

/-- DEFLATE stream made of stored blocks: each block is a first byte holding
the BFINAL flag, LEN and NLEN as two little-endian bytes each, then LEN raw
bytes; at most 65535 bytes per block. -/
def deflateStored (d : List Nat) : List Nat :=
  if d.length ≤ 65535 then
    1 :: (u16le d.length ++ u16le (65535 - d.length) ++ d)
  else
    0 :: (u16le 65535 ++ u16le 0 ++ (d.take 65535 ++ deflateStored (d.drop 65535)))
termination_by d.length
decreasing_by simp [List.length_drop]; omega

/-- Parse a stored-block DEFLATE stream; returns the decoded bytes and the
unconsumed remainder of the input. -/
def inflateStored : List Nat → Option (List Nat × List Nat)
  | bf :: l0 :: l1 :: n0 :: n1 :: rest =>
    let len := l0 + 256 * l1
    if n0 + 256 * n1 = 65535 - len then
      if len ≤ rest.length then
        if bf % 2 = 1 then some (rest.take len, rest.drop len)
        else
          match inflateStored (rest.drop len) with
          | some (dat2, rest3) => some (rest.take len ++ dat2, rest3)
          | none => none
      else none
    else none
  | _ => none
termination_by s => s.length
decreasing_by simp [List.length_drop]; omega

/-- gzip member produced by the writer: fixed 10-byte header (magic 31 139,
CM=8 deflate, no flags, zero mtime, OS=255), DEFLATE stream, then CRC-32 and
length-mod-2^32 trailer. -/
def gzipEncode (d : List Nat) : List Nat :=
  [31, 139, 8, 0, 0, 0, 0, 0, 0, 255] ++
    deflateStored d ++ u32le (crc32 d) ++ u32le (d.length % 4294967296)

/-- gzip reader: parse the header, inflate, and demand that exactly the
trailer (matching CRC-32 and length) remains. -/
def gzipDecode (s : List Nat) : Option (List Nat) :=
  match s with
  | 31 :: 139 :: 8 :: 0 :: _ :: _ :: _ :: _ :: _ :: _ :: rest =>
    match inflateStored rest with
    | some (dat, tr) =>
      if tr = u32le (crc32 dat) ++ u32le (dat.length % 4294967296) then some dat
      else none
    | none => none
  | _ => none

/-! ## internal/cache/compression.go -/

/-- Minimum size eligible for compression (`MinSizeForCompression`, 1 MB). -/
def MinSizeForCompression : Int := 1048576

/-- The compressible content-type classes of `ShouldCompress`
(map keys; the membership test is order-independent). -/
def compressibleTypes : List String :=
  ["text/", "application/json", "application/javascript",
   "application/xml", "application/yaml", "image/svg"]

/-- Embedding of `ShouldCompress(contentType, size)`: size at least the minimum and the
content type starts with a compressible class. -/
def ShouldCompress (contentType : String) (size : Int) : Bool :=
  if size < MinSizeForCompression then false
  else compressibleTypes.any (fun t => goHasPre contentType t)

/-- Embedding of `CompressData`: gzip-compress a payload. Writing to an in-memory buffer
never fails, so the error branch of the Go function is unreachable and the
result is always `some`. -/
def CompressData (data : List Nat) : Option (List Nat) :=
  some (gzipEncode data)

/-- Embedding of `DecompressData`: gzip-decompress a payload; `none` is the error return. -/
def DecompressData (data : List Nat) : Option (List Nat) :=
  gzipDecode data

/-! ## gzip round-trip lemmas -/

theorem u16le_reconstruct (n : Nat) (h : n ≤ 65535) :
    n % 256 + 256 * (n / 256 % 256) = n := by
  omega

theorem inflateStored_deflateStored (d tail : List Nat) :
    inflateStored (deflateStored d ++ tail) = some (d, tail) := by
  by_cases h : d.length ≤ 65535
  · rw [deflateStored, if_pos h]
    have h1 : d.length % 256 + 256 * (d.length / 256 % 256) = d.length := by omega
    have h2 : (65535 - d.length) % 256 + 256 * ((65535 - d.length) / 256 % 256)
        = 65535 - d.length := by omega
    have h3 : d.length ≤ (d ++ tail).length := by
      simp [List.length_append]
    have h4 : (d ++ tail).take d.length = d := List.take_left d tail
    have h5 : (d ++ tail).drop d.length = tail := List.drop_left d tail
    simp only [u16le, List.cons_append, List.nil_append, List.append_assoc,
      inflateStored]
    simp [h1, h2, h3, h4, h5]
  · rw [deflateStored, if_neg h]
    have htk : (d.take 65535).length = 65535 := by
      rw [List.length_take]; omega
    have hmin : min 65535 d.length = 65535 := Nat.min_eq_left (by omega)
    have hdrop :
        (d.take 65535 ++ (deflateStored (d.drop 65535) ++ tail)).drop 65535 =
          deflateStored (d.drop 65535) ++ tail :=
      List.drop_left' htk
    have htake :
        (d.take 65535 ++ (deflateStored (d.drop 65535) ++ tail)).take 65535 =
          d.take 65535 :=
      List.take_left' htk
    have hrec := inflateStored_deflateStored (d.drop 65535) tail
    simp only [u16le, List.cons_append, List.nil_append, List.append_assoc,
      inflateStored]
    norm_num [hmin, hdrop, htake, hrec, List.take_append_drop]
termination_by d.length
decreasing_by simp [List.length_drop]; omega

theorem deflateStored_length_ge (d : List Nat) :
    d.length ≤ (deflateStored d).length := by
  by_cases h : d.length ≤ 65535
  · rw [deflateStored, if_pos h]
    simp [u16le]
    omega
  · rw [deflateStored, if_neg h]
    have hrec := deflateStored_length_ge (d.drop 65535)
    simp only [u16le, List.length_cons, List.length_append, List.length_take,
      List.length_drop] at *
    omega
termination_by d.length
decreasing_by simp [List.length_drop]; omega

theorem gzipEncode_length_ge (d : List Nat) :
    d.length + 18 ≤ (gzipEncode d).length := by
  have := deflateStored_length_ge d
  simp only [gzipEncode, u32le, List.length_append, List.length_cons,
    List.length_nil]
  omega

theorem gzipDecode_gzipEncode (d : List Nat) :
    gzipDecode (gzipEncode d) = some d := by
  simp only [gzipEncode, List.cons_append, List.nil_append, gzipDecode,
    List.append_assoc]
  rw [inflateStored_deflateStored d (u32le (crc32 d) ++ u32le (d.length % 4294967296))]
  simp

/-! ## internal/cache: entry model and the process-wide store (unnamed cache.go)

`MaxCacheSize` is environment-derived at startup (one source variant reads
`MAX_CACHE_SIZE`, the other fixes 300 MB), so the model takes it as an
explicit `maxSize` parameter of every operation that consults it. -/

/-- Constant `DefaultCacheDuration` (5 minutes), in nanoseconds. -/
def DefaultCacheDuration : Int := 300000000000

/-- Embedding of `CacheEntry`: one cached object version. `CompressedData` is `none` for
the Go nil slice and `some` for a non-nil slice; `Size` and
`CompressedSize` are the Go int64 fields. -/
structure CacheEntry where
  Data : List Nat
  CompressedData : Option (List Nat)
  ContentType : String
  Size : Int
  CompressedSize : Int
  LastModified : Int
  ETag : String
  ExpiresAt : Int
  IsCompressed : Bool
deriving DecidableEq

/-- The process-wide cache: the `sync.Map` as an association list in
iteration order, plus the `cacheSize` int64 counter. -/
structure CacheState where
  cache : List (String × CacheEntry)
  cacheSize : Int
deriving DecidableEq

/-- The cache at process start: empty map, zero counter. -/
def emptyState : CacheState :=
  { cache := [], cacheSize := 0 }

/-- Go `sync.Map.Load`. -/
def mapLoad : List (String × CacheEntry) → String → Option CacheEntry
  | [], _ => none
  | (k, v) :: rest, key => if k = key then some v else mapLoad rest key

/-- Go `sync.Map.Store`: replace the binding if the key is present, otherwise
append. -/
def mapStore : List (String × CacheEntry) → String → CacheEntry → List (String × CacheEntry)
  | [], key, v => [(key, v)]
  | (k, w) :: rest, key, v =>
    if k = key then (key, v) :: rest else (k, w) :: mapStore rest key v

/-- Go `sync.Map.Delete`: drop the binding for the key. -/
def mapDelete : List (String × CacheEntry) → String → List (String × CacheEntry)
  | [], _ => []
  | (k, w) :: rest, key =>
    if k = key then mapDelete rest key else (k, w) :: mapDelete rest key

/-- Embedding of `GetCacheKey(bucket, key)` = `fmt.Sprintf("%s/%s", bucket, key)`. -/
def GetCacheKey (bucket key : String) : String :=
  bucket ++ "/" ++ key

/-- The `cache.Range` loop of `cleanupCacheIfNeeded`: walk the entries in
iteration order, collecting each visited key and subtracting its raw `Size`
from the counter, continuing while the new entry still would not fit.
Returns the visited keys and the updated counter. -/
def evictLoop (newSize maxSize : Int) :
    List (String × CacheEntry) → Int → List String × Int
  | [], size => ([], size)
  | (k, e) :: rest, size =>
    let size1 := size - e.Size
    if size1 + newSize > maxSize then
      match evictLoop newSize maxSize rest size1 with
      | (ks, size2) => (k :: ks, size2)
    else ([k], size1)

/-- Embedding of `cleanupCacheIfNeeded(newSize)`: when the new entry would overflow
`maxSize`, sweep entries (unordered, best effort) subtracting their raw
sizes, then delete every visited key. -/
def cleanupCacheIfNeeded (maxSize : Int) (st : CacheState) (newSize : Int) : CacheState :=
  if st.cacheSize + newSize > maxSize then
    match evictLoop newSize maxSize st.cache st.cacheSize with
    | (ks, size2) => { cache := ks.foldl mapDelete st.cache, cacheSize := size2 }
  else st

/-- Embedding of `AddToCache(cacheKey, data, contentType, size, lastModified, etag)` at
instant `now`: reject when the raw data length exceeds `maxSize`; otherwise
attempt compression when `ShouldCompress` holds, adopt it only when strictly
smaller than the declared `size`; evict if needed; store the entry and add
the chosen size to the counter. -/
def AddToCache (maxSize : Int) (st : CacheState) (cacheKey : String) (data : List Nat)
    (contentType : String) (size : Int) (lastModified : Int) (etag : String)
    (now : Int) : CacheState :=
  if (data.length : Int) > maxSize then st
  else
    match
      (if ShouldCompress contentType size then
        match CompressData data with
        | some cd =>
          if (cd.length : Int) < size then (some cd, true, (cd.length : Int))
          else (some cd, false, size)
        | none => (none, false, size)
      else (none, false, size) : Option (List Nat) × Bool × Int)
    with
    | (compressedData, isCompressed, finalSize) =>
      let st1 := cleanupCacheIfNeeded maxSize st finalSize
      let entry : CacheEntry :=
        { Data := data
          CompressedData := compressedData
          ContentType := contentType
          Size := size
          CompressedSize :=
            (match compressedData with
             | some cd => (cd.length : Int)
             | none => 0)
          LastModified := lastModified
          ETag := etag
          ExpiresAt := now + DefaultCacheDuration
          IsCompressed := isCompressed }
      { cache := mapStore st1.cache cacheKey entry
        cacheSize := st1.cacheSize + finalSize }

/-- Embedding of `DeleteFromCache(cacheKey)`: `LoadAndDelete`; when a binding existed,
subtract its raw `Size` from the counter. -/
def DeleteFromCache (st : CacheState) (cacheKey : String) : CacheState :=
  match mapLoad st.cache cacheKey with
  | some e => { cache := mapDelete st.cache cacheKey, cacheSize := st.cacheSize - e.Size }
  | none => st

/-- Embedding of `GetFromCache(cacheKey)` at instant `now`: a hit requires the binding to
exist and `now` to be strictly before `ExpiresAt`; an expired binding is
lazily deleted and reported as a miss. Returns the result and the
post-state. -/
def GetFromCache (st : CacheState) (cacheKey : String) (now : Int) :
    Option CacheEntry × CacheState :=
  match mapLoad st.cache cacheKey with
  | some e =>
    if now < e.ExpiresAt then (some e, st)
    else (none, DeleteFromCache st cacheKey)
  | none => (none, st)

/-- One pass of `cleanupCacheRoutine` at instant `now`: delete every entry
whose expiry is strictly in the past (`now.After(entry.ExpiresAt)`). -/
def sweepExpired (st : CacheState) (now : Int) : CacheState :=
  st.cache.foldl
    (fun acc p => if now > p.2.ExpiresAt then DeleteFromCache acc p.1 else acc) st

/-- The size the counter accounts for an entry: the compressed size when the
entry was adopted as compressed, the raw size otherwise. -/
def chosenSize (e : CacheEntry) : Int :=
  if e.IsCompressed then e.CompressedSize else e.Size

/-- Sum of the chosen sizes of all live entries. -/
def liveSizeSum (m : List (String × CacheEntry)) : Int :=
  (m.map (fun p => chosenSize p.2)).foldl (· + ·) 0

/-! ## Map lemmas -/

theorem mapLoad_mapStore_self (m : List (String × CacheEntry)) (k : String)
    (v : CacheEntry) : mapLoad (mapStore m k v) k = some v := by
  induction m with
  | nil => simp [mapStore, mapLoad]
  | cons p rest ih =>
    match p with
    | (k1, w) =>
      by_cases h : k1 = k
      · simp [mapStore, mapLoad, h]
      · simp [mapStore, mapLoad, h, ih]

theorem mapLoad_mapDelete_self (m : List (String × CacheEntry)) (k : String) :
    mapLoad (mapDelete m k) k = none := by
  induction m with
  | nil => simp [mapDelete, mapLoad]
  | cons p rest ih =>
    match p with
    | (k1, w) =>
      by_cases h : k1 = k
      · simp [mapDelete, h, ih]
      · simp [mapDelete, mapLoad, h, ih]

/-! ## internal/handlers/object.go: GET and PUT handlers

The minio backend is an external collaborator; each handler takes the
outcome of its single backend call as an input. The `Accept-Encoding`
header's gzip test is the boolean `acceptsGzip` input. -/

/-- Outcome of the backend fetch consulted on a GET miss (the
`GetObject`/`Stat`/`ReadAll` sequence collapsed to its result): object
bytes with metadata, the `NoSuchKey` condition, or another error. -/
inductive FetchResult where
  | found (data : List Nat) (contentType : String) (lastModified : Int) (etag : String)
  | noSuchKey
  | backendErr
deriving DecidableEq

/-- Result of `handleGet` as seen by the client. -/
inductive GetResult where
  | ok (body : List Nat) (contentEncoding : String)
  | notFound
  | validationErr
  | internalErr
deriving DecidableEq

/-- Embedding of `handleGet(bucket, key)`: empty bucket or key is a validation error;
then cache lookup; on a hit serve compressed bytes only when the caller
accepts gzip and the entry was adopted as compressed; on a miss translate
the backend outcome, populating the cache (then possibly compressing
inline for transport) only on backend success. -/
def handleGet (maxSize : Int) (st : CacheState) (bucket key : String)
    (acceptsGzip : Bool) (now : Int) (backend : FetchResult) :
    CacheState × GetResult :=
  if bucket = "" ∨ key = "" then (st, .validationErr)
  else
    let ck := GetCacheKey bucket key
    match GetFromCache st ck now with
    | (some entry, st1) =>
      if acceptsGzip && entry.IsCompressed && entry.CompressedData.isSome then
        (st1, .ok (entry.CompressedData.getD []) "gzip")
      else (st1, .ok entry.Data "")
    | (none, st1) =>
      match backend with
      | .backendErr => (st1, .internalErr)
      | .noSuchKey => (st1, .notFound)
      | .found data ct lm etag =>
        let st2 := AddToCache maxSize st1 ck data ct (data.length : Int) lm etag now
        if acceptsGzip && ShouldCompress ct (data.length : Int) then
          match CompressData data with
          | some cd =>
            if cd.length < data.length then (st2, .ok cd "gzip")
            else (st2, .ok data "")
          | none => (st2, .ok data "")
        else (st2, .ok data "")

/-- Externally ordered actions performed by `handlePut`, in program order. -/
inductive PutEvent where
  | cacheDelete (cacheKey : String)
  | backendStore (bucket key : String) (data : List Nat) (contentType : String)
deriving DecidableEq

/-- Result of `handlePut` as seen by the client. -/
inductive PutResult where
  | ok (status : Nat)
  | validationErr
  | internalErr
deriving DecidableEq

/-- Embedding of `handlePut(bucket, key, input)`: empty bucket or key is a validation
error; otherwise delete the cache entry for the key, default the content
type, decompress a gzip-encoded body (failure is a validation error), then
issue the backend store. The event list records the cache invalidation and
the backend call in program order; `backendOk` is the store outcome. -/
def handlePut (st : CacheState) (bucket key contentType contentEncoding : String)
    (data : List Nat) (backendOk : Bool) :
    CacheState × List PutEvent × PutResult :=
  if bucket = "" ∨ key = "" then (st, [], .validationErr)
  else
    let ck := GetCacheKey bucket key
    let st1 := DeleteFromCache st ck
    let ct := if contentType = "" then "application/octet-stream" else contentType
    match (if contentEncoding = "gzip" then DecompressData data else some data) with
    | none => (st1, [.cacheDelete ck], .validationErr)
    | some payload =>
      if backendOk then
        (st1, [.cacheDelete ck, .backendStore bucket key payload ct], .ok 200)
      else
        (st1, [.cacheDelete ck, .backendStore bucket key payload ct], .internalErr)

/-! ## internal/middleware: validition.go and access_control.go -/

/-- What a middleware does with a request: pass it to the inner handler or
short-circuit with an HTTP error. -/
inductive MwOutcome where
  | next
  | forbidden
deriving DecidableEq

/-- Bucket extraction of `WithValidation`: strip the `/objects/` route
marker and take the first `/`-separated segment. -/
def extractBucket (path : String) : String :=
  (goSplitChar (goTrimPre path "/objects/") '/').headD ""

/-- Embedding of `WithValidation(config)` applied to a request with the given path and
method: excluded paths and requests without a bucket pass through; an
unconfigured bucket is forbidden; GET/HEAD pass for permission `read`,
`all` or `write`; PUT/DELETE pass for `write` or `all`; everything else is
forbidden. -/
def WithValidation (excludedPaths : List String)
    (bucketAccess : String → Option String) (path method : String) : MwOutcome :=
  if excludedPaths.contains path then .next
  else
    let bucket := extractBucket path
    if bucket = "" then .next
    else
      match bucketAccess bucket with
      | none => .forbidden
      | some policy =>
        if method = "GET" ∨ method = "HEAD" then
          if policy = "read" ∨ policy = "all" ∨ policy = "write" then .next
          else .forbidden
        else if method = "PUT" ∨ method = "DELETE" then
          if policy = "write" ∨ policy = "all" then .next else .forbidden
        else .forbidden

/-- What `WithBucketAccessControl` does with a request: pass through, reject
the path as invalid (400), or reject with one of its two 403 responses. -/
inductive AcOutcome where
  | next
  | invalidPath
  | forbiddenOp
  | forbiddenIP
deriving DecidableEq

/-- Embedding of `isOperationAllowed(policy, bucketName, method)`: the bucket is in
`AllowedOperations` and the exact method string is listed. -/
def isOperationAllowed (allowedOperations : String → Option (List String))
    (bucketName method : String) : Bool :=
  match allowedOperations bucketName with
  | some operations => operations.contains method
  | none => false

/-- Embedding of `isIPAllowed(policy, bucketName, remoteAddr)`: the bucket is in
`AllowedIPs` and the client IP (the remote address up to the first colon)
has one of the listed prefixes. -/
def isIPAllowed (allowedIPs : String → Option (List String))
    (bucketName remoteAddr : String) : Bool :=
  match allowedIPs bucketName with
  | some ips =>
    ips.any (fun p => goHasPre ((goSplitChar remoteAddr ':').headD "") p)
  | none => false

/-- First element of a segment list (`pathSegments[0]`; the segment lists
this is applied to are never empty, Go `strings.Split` returns at least one
element). -/
def firstSegment (l : List String) : String :=
  l.headD ""

/-- Embedding of `WithBucketAccessControl(policy, enabled)` applied to a request:
disabled means pass-through; fewer than two path segments is an invalid
path; then the operation check and the IP check must both succeed. -/
def WithBucketAccessControl (allowedOperations allowedIPs : String → Option (List String))
    (enabled : Bool) (path method remoteAddr : String) : AcOutcome :=
  if !enabled then .next
  else
    let segs := goSplitChar (goTrim path '/') '/'
    if segs.length < 2 then .invalidPath
    else
      let bucketName := firstSegment segs
      if !isOperationAllowed allowedOperations bucketName method then .forbiddenOp
      else if !isIPAllowed allowedIPs bucketName remoteAddr then .forbiddenIP
      else .next

/-! ## Helper lemmas about the cache operations -/

/-- The entry that `AddToCache` stores, when the raw-length guard admits the
call: compressed bytes are recorded whenever `ShouldCompress` held (the
in-memory gzip write cannot fail), and the compressed flag additionally
requires the compressed length to be strictly below the declared size. -/
theorem AddToCache_entry (maxSize : Int) (st : CacheState) (ck : String)
    (data : List Nat) (ct : String) (size lm : Int) (etag : String) (now : Int)
    (h : ¬((data.length : Int) > maxSize)) :
    mapLoad (AddToCache maxSize st ck data ct size lm etag now).cache ck =
      some
        { Data := data
          CompressedData :=
            if ShouldCompress ct size then some (gzipEncode data) else none
          ContentType := ct
          Size := size
          CompressedSize :=
            if ShouldCompress ct size then ((gzipEncode data).length : Int) else 0
          LastModified := lm
          ETag := etag
          ExpiresAt := now + DefaultCacheDuration
          IsCompressed :=
            ShouldCompress ct size && decide (((gzipEncode data).length : Int) < size) } := by
  unfold AddToCache
  rw [if_neg h]
  by_cases hc : ShouldCompress ct size = true
  · by_cases hlt : ((gzipEncode data).length : Int) < size
    · simp [CompressData, hc, hlt, mapLoad_mapStore_self]
    · simp [CompressData, hc, hlt, mapLoad_mapStore_self]
  · simp only [Bool.not_eq_true] at hc
    simp [CompressData, hc, mapLoad_mapStore_self]

/-! ## Concrete sample data for witnesses -/

/-- A sample live entry expiring at instant 10. -/
def entryExp10 : CacheEntry :=
  { Data := [1], CompressedData := none, ContentType := "t", Size := 1,
    CompressedSize := 0, LastModified := 0, ETag := "e", ExpiresAt := 10,
    IsCompressed := false }

/-- A one-entry store holding `entryExp10` under key `"k"`. -/
def stOneK : CacheState :=
  { cache := [("k", entryExp10)], cacheSize := 1 }

/-- A one-entry store holding `entryExp10` under key `"a"`. -/
def stOneA : CacheState :=
  { cache := [("a", entryExp10)], cacheSize := 1 }

/-! ## Claim theorems -/

/-- C1: the size-accounting invariant fails on the code. Two `AddToCache`
calls on the same key (raw sizes 5, no compression, bound 1000) leave the
counter at 10 while the single live entry has chosen size 5: `Store` on an
existing key never subtracts the replaced entry's size, so the drift
persists after all operations have completed. -/
theorem C1_sizeAccounting_code_bug :
    (AddToCache 1000 (AddToCache 1000 emptyState "b/k" [1, 2, 3, 4, 5]
          "application/octet-stream" 5 0 "e1" 0) "b/k" [1, 2, 3, 4, 5]
          "application/octet-stream" 5 0 "e2" 100).cacheSize = 10 ∧
    liveSizeSum (AddToCache 1000 (AddToCache 1000 emptyState "b/k" [1, 2, 3, 4, 5]
          "application/octet-stream" 5 0 "e1" 0) "b/k" [1, 2, 3, 4, 5]
          "application/octet-stream" 5 0 "e2" 100).cache = 5 := by
  decide

/-- C2 counterexample: a `Put` whose declared `size` (2000) exceeds
`maxSize` (1000) but whose data slice is short is admitted: the guard
compares `len(data)`, not `size`, so the entry is inserted, the counter
moves to 2000, and a subsequent `Get` of the key hits. -/
theorem C2_sizeBound_counterexample :
    (AddToCache 1000 emptyState "b/k" [] "application/octet-stream"
        2000 0 "e" 0).cacheSize = 2000 ∧
    mapLoad (AddToCache 1000 emptyState "b/k" [] "application/octet-stream"
        2000 0 "e" 0).cache "b/k" ≠ none ∧
    (GetFromCache (AddToCache 1000 emptyState "b/k" [] "application/octet-stream"
        2000 0 "e" 0) "b/k" 1).1 ≠ none := by
  decide

/-- C2 (amended): a `Put` whose raw data length exceeds `maxSize` is a
silent no-op — the whole cache state (entry map and size counter) is
returned unchanged, so nothing is inserted, nothing is evicted, and any
later lookup behaves as before the call. -/
theorem C2_sizeBound_amended (maxSize : Int) (st : CacheState) (ck : String)
    (data : List Nat) (ct : String) (size lm : Int) (etag : String) (now : Int)
    (h : (data.length : Int) > maxSize) :
    AddToCache maxSize st ck data ct size lm etag now = st := by
  unfold AddToCache
  rw [if_pos h]

/-- C2 witness: the amended no-op theorem at a concrete oversized payload. -/
theorem C2_sizeBound_witness :
    (((([1, 2, 3] : List Nat).length : Int) > 2) ∧
      AddToCache 2 emptyState "k" [1, 2, 3] "text/plain" 3 0 "e" 0 = emptyState) :=
  ⟨by decide, C2_sizeBound_amended 2 emptyState "k" [1, 2, 3] "text/plain" 3 0 "e" 0 (by decide)⟩

/-- C5: a `Get` hit requires the binding to exist with `now` strictly
before `ExpiresAt`; a binding whose expiry is not strictly in the future is
reported as a miss and deleted from the store as a side effect. -/
theorem C5_expiryGet (st : CacheState) (ck : String) (now : Int) :
    (∀ e, (GetFromCache st ck now).1 = some e →
        mapLoad st.cache ck = some e ∧ now < e.ExpiresAt) ∧
    (∀ e, mapLoad st.cache ck = some e → ¬now < e.ExpiresAt →
        (GetFromCache st ck now).1 = none ∧
        mapLoad (GetFromCache st ck now).2.cache ck = none) ∧
    (∀ e, mapLoad st.cache ck = some e → now < e.ExpiresAt →
        (GetFromCache st ck now).1 = some e) := by
  unfold GetFromCache
  cases hl : mapLoad st.cache ck with
  | none => simp
  | some e =>
    by_cases ht : now < e.ExpiresAt
    · simp [ht, hl]
    · have ht2 : e.ExpiresAt ≤ now := by omega
      simp [ht, hl, ht2, DeleteFromCache, mapLoad_mapDelete_self]

/-- C5 witness: an entry expiring exactly at `now = 10` is a miss and is
deleted. -/
theorem C5_expiryGet_witness :
    (GetFromCache stOneK "k" 10).1 = none ∧
    mapLoad (GetFromCache stOneK "k" 10).2.cache "k" = none :=
  (C5_expiryGet stOneK "k" 10).2.1 entryExp10 (by decide) (by decide)

/-- C6: compression round-trip identity — for every byte payload,
decompressing the compressed bytes succeeds and returns the payload. -/
theorem C6_roundTrip (x : List Nat) :
    (CompressData x).bind DecompressData = some x := by
  simp [CompressData, DecompressData, gzipDecode_gzipEncode]

/-- C8: `Delete` is idempotent — a second consecutive delete of the same
key changes neither the entry map nor the size counter, and deleting a key
with no binding leaves the state unchanged. (The model is total: no call
errors.) -/
theorem C8_deleteIdempotent (st : CacheState) (ck : String) :
    DeleteFromCache (DeleteFromCache st ck) ck = DeleteFromCache st ck ∧
    (mapLoad st.cache ck = none → DeleteFromCache st ck = st) := by
  constructor
  · cases hl : mapLoad st.cache ck with
    | none => simp [DeleteFromCache, hl]
    | some e => simp [DeleteFromCache, hl, mapLoad_mapDelete_self]
  · intro h
    simp [DeleteFromCache, h]

/-- C8 witness: deleting a key absent from a one-entry store is a no-op. -/
theorem C8_deleteIdempotent_witness :
    mapLoad stOneA.cache "x" = none ∧ DeleteFromCache stOneA "x" = stOneA :=
  ⟨by decide, (C8_deleteIdempotent stOneA "x").2 (by decide)⟩

/-- C3 counterexample: an empty `text/plain` payload declared with
`size = 1048576`. `ShouldCompress` consults the declared size, so the code
compresses the zero raw bytes; any gzip member is non-empty (its framing
alone is at least 18 bytes) and far below the declared size, so the
comparison `len(compressedData) < size` adopts it: the stored entry has
`CompressedData` non-nil and `IsCompressed = true`, yet the compressed
bytes are not strictly fewer than the raw data's zero bytes — refuting the
claim's "present only if strictly fewer bytes than the raw data" (and,
with it, the claimed equivalence). The refutation depends only on the
compressed output being non-empty and below the declared size, not on the
codec's exact output length. -/
theorem C3_compressionAdoption_counterexample :
    ∃ e,
      mapLoad (AddToCache 314572800 emptyState "b/k" [] "text/plain"
          1048576 0 "e" 0).cache "b/k" = some e ∧
      e.CompressedData ≠ none ∧
      e.IsCompressed = true ∧
      ¬(e.CompressedData.getD []).length < e.Data.length := by
  have h := AddToCache_entry 314572800 emptyState "b/k" [] "text/plain"
    1048576 0 "e" 0 (by norm_num)
  have hsc : ShouldCompress "text/plain" 1048576 = true := by decide
  have hd : deflateStored [] = 1 :: (u16le 0 ++ u16le (65535 - 0) ++ []) := by
    rw [deflateStored]
    norm_num
  have hlen : (gzipEncode []).length = 23 := by
    simp [gzipEncode, hd, u16le, u32le]
  have hlt : ((gzipEncode []).length : Int) < 1048576 := by
    rw [hlen]
    norm_num
  simp only [hsc, decide_eq_true hlt, Bool.and_self, eq_self_iff_true, if_true] at h
  refine ⟨_, h, Option.some_ne_none _, rfl, ?_⟩
  show ¬((some (gzipEncode [])).getD []).length < ([] : List Nat).length
  simp

/-- C3 (amended): in every entry stored by `AddToCache`, `CompressedData`
is present exactly when `ShouldCompress` held for the declared content type
and size (the in-memory compression attempt always succeeds), whether or
not the result was smaller; `IsCompressed` is true exactly when
`ShouldCompress` held and the compressed byte count is strictly below the
declared size. -/
theorem C3_compressionAdoption_amended (maxSize : Int) (st : CacheState)
    (ck : String) (data : List Nat) (ct : String) (size lm : Int)
    (etag : String) (now : Int) (h : ¬((data.length : Int) > maxSize)) :
    ∃ e,
      mapLoad (AddToCache maxSize st ck data ct size lm etag now).cache ck = some e ∧
      (e.CompressedData ≠ none ↔ ShouldCompress ct size = true) ∧
      (e.IsCompressed = true ↔
        (ShouldCompress ct size = true ∧ ((gzipEncode data).length : Int) < size)) := by
  refine ⟨_, AddToCache_entry maxSize st ck data ct size lm etag now h, ?_, ?_⟩
  · by_cases hc : ShouldCompress ct size = true <;> simp [hc]
  · by_cases hc : ShouldCompress ct size = true <;>
      by_cases hlt : ((gzipEncode data).length : Int) < size <;> simp [hc, hlt]

/-- C3 witness: the amended characterization at a small payload for which
`ShouldCompress` is false — no compressed bytes, flag off. -/
theorem C3_compressionAdoption_witness :
    (¬((([1, 2] : List Nat).length : Int) > 100)) ∧
    ∃ e,
      mapLoad (AddToCache 100 emptyState "k" [1, 2] "text/plain" 2 0 "e" 0).cache "k"
        = some e ∧
      (e.CompressedData ≠ none ↔ ShouldCompress "text/plain" 2 = true) ∧
      (e.IsCompressed = true ↔
        (ShouldCompress "text/plain" 2 = true ∧
          ((gzipEncode [1, 2]).length : Int) < 2)) :=
  ⟨by decide, C3_compressionAdoption_amended 100 emptyState "k" [1, 2] "text/plain" 2 0 "e" 0 (by decide)⟩

/-- C7: in every execution of `handlePut`, any backend store action in the
emitted event trace is preceded by the cache invalidation of the request's
cache key — the backend is never reached before the cache entry for
`bucket/key` has been deleted. -/
theorem C7_putInvalidationOrder (st : CacheState)
    (bucket key contentType contentEncoding : String) (data : List Nat)
    (backendOk : Bool) :
    ∀ (n : Nat) (b k : String) (d : List Nat) (c : String),
      (handlePut st bucket key contentType contentEncoding data backendOk).2.1[n]? =
        some (PutEvent.backendStore b k d c) →
      ∃ m : Nat, m < n ∧
        (handlePut st bucket key contentType contentEncoding data backendOk).2.1[m]? =
          some (PutEvent.cacheDelete (GetCacheKey bucket key)) := by
  intro n b k d c h
  unfold handlePut at h ⊢
  by_cases hv : bucket = "" ∨ key = ""
  · rw [if_pos hv] at h
    simp at h
  · rw [if_neg hv] at h ⊢
    cases hdec : (if contentEncoding = "gzip" then DecompressData data else some data) with
    | none =>
      rw [hdec] at h
      match n with
      | 0 => simp at h
      | n + 1 => simp at h
    | some payload =>
      match n with
      | 0 =>
        by_cases hb : backendOk = true <;> simp [hb, hdec] at h
      | 1 =>
        refine ⟨0, by omega, ?_⟩
        by_cases hb : backendOk = true <;> simp [hb, hdec]
      | n + 2 =>
        by_cases hb : backendOk = true <;> simp [hb, hdec] at h

/-- C7 witness: a concrete PUT whose trace places the backend store at
index 1 after the cache delete at index 0. -/
theorem C7_putInvalidationOrder_witness :
    ((handlePut emptyState "b" "k" "" "" [1] true).2.1[1]? =
      some (PutEvent.backendStore "b" "k" [1] "application/octet-stream")) ∧
    ∃ m : Nat, m < 1 ∧
      (handlePut emptyState "b" "k" "" "" [1] true).2.1[m]? =
        some (PutEvent.cacheDelete (GetCacheKey "b" "k")) :=
  ⟨by decide,
    C7_putInvalidationOrder emptyState "b" "k" "" "" [1] true 1 "b" "k" [1]
      "application/octet-stream" (by decide)⟩

/-- C9: a GET whose key is absent from the cache and whose backend fetch
reports `NoSuchKey` returns the NotFound outcome with the cache state
unchanged — in particular the key still has no entry afterwards (no
negative caching). -/
theorem C9_noNegativeCaching (maxSize : Int) (st : CacheState)
    (bucket key : String) (acceptsGzip : Bool) (now : Int)
    (hbk : ¬(bucket = "" ∨ key = ""))
    (hmiss : mapLoad st.cache (GetCacheKey bucket key) = none) :
    handleGet maxSize st bucket key acceptsGzip now .noSuchKey = (st, .notFound) ∧
    mapLoad (handleGet maxSize st bucket key acceptsGzip now .noSuchKey).1.cache
      (GetCacheKey bucket key) = none := by
  have h1 : GetFromCache st (GetCacheKey bucket key) now = (none, st) := by
    unfold GetFromCache
    rw [hmiss]
  have h2 : handleGet maxSize st bucket key acceptsGzip now .noSuchKey = (st, .notFound) := by
    unfold handleGet
    rw [if_neg hbk]
    simp only [h1]
  refine ⟨h2, ?_⟩
  rw [h2]
  exact hmiss

/-- C9 witness: a concrete absent key on the empty cache. -/
theorem C9_noNegativeCaching_witness :
    handleGet 1000 emptyState "b" "k" false 0 .noSuchKey = (emptyState, .notFound) ∧
    mapLoad (handleGet 1000 emptyState "b" "k" false 0 .noSuchKey).1.cache
      (GetCacheKey "b" "k") = none :=
  C9_noNegativeCaching 1000 emptyState "b" "k" false 0 (by decide) (by decide)

/-- C4 counterexample: the wired access-control middleware lets a GET
through for a bucket whose configured permission is `write` — a permission
the claim calls insufficient for GET (it admits only `read` and `all`), so
the claimed Forbidden response does not happen. -/
theorem C4_accessPolicy_counterexample :
    WithValidation ["/health", "/metrics", "/stats"]
      (fun b => if b = "public" then some "write" else none)
      "/objects/public/a.txt" "GET" = .next := by
  decide

/-- C4 (amended): for a request on a non-excluded path with a non-empty
extracted bucket, the middleware passes the request to the inner pipeline
exactly when the bucket is configured and the permission suffices — `read`,
`all` or `write` for GET/HEAD, `write` or `all` for PUT/DELETE — and every
other case (unconfigured bucket, insufficient permission, other method)
short-circuits with Forbidden. -/
theorem C4_accessPolicy_amended (excludedPaths : List String)
    (bucketAccess : String → Option String) (path method : String)
    (hex : excludedPaths.contains path = false)
    (hb : extractBucket path ≠ "") :
    ((WithValidation excludedPaths bucketAccess path method = .next) ↔
      (∃ p, bucketAccess (extractBucket path) = some p ∧
        (((method = "GET" ∨ method = "HEAD") ∧
            (p = "read" ∨ p = "all" ∨ p = "write")) ∨
         ((method = "PUT" ∨ method = "DELETE") ∧ (p = "write" ∨ p = "all"))))) ∧
    (WithValidation excludedPaths bucketAccess path method = .next ∨
     WithValidation excludedPaths bucketAccess path method = .forbidden) := by
  unfold WithValidation
  simp only [hex, Bool.false_eq_true, if_false]
  rw [if_neg hb]
  cases hacc : bucketAccess (extractBucket path) with
  | none => simp
  | some p =>
    by_cases h1 : method = "GET" ∨ method = "HEAD"
    · rcases h1 with h1 | h1 <;> subst h1 <;>
        by_cases h2 : p = "read" ∨ p = "all" ∨ p = "write" <;>
        simp [h2]
    · by_cases h3 : method = "PUT" ∨ method = "DELETE"
      · rcases h3 with h3 | h3 <;> subst h3 <;>
          by_cases h4 : p = "write" ∨ p = "all" <;>
          simp [h4]
      · simp [h1, h3]

/-- C4 witness: the amended characterization at a concrete `read`-only
bucket and a GET request. -/
theorem C4_accessPolicy_witness :
    ((["/health"] : List String).contains "/objects/b/k" = false) ∧
    extractBucket "/objects/b/k" ≠ "" ∧
    (((WithValidation ["/health"] (fun b => if b = "b" then some "read" else none)
          "/objects/b/k" "GET" = .next) ↔
        (∃ p, (fun b => if b = "b" then some "read" else none) (extractBucket "/objects/b/k")
            = some p ∧
          ((("GET" = "GET" ∨ "GET" = "HEAD") ∧
              (p = "read" ∨ p = "all" ∨ p = "write")) ∨
           (("GET" = "PUT" ∨ "GET" = "DELETE") ∧ (p = "write" ∨ p = "all"))))) ∧
      (WithValidation ["/health"] (fun b => if b = "b" then some "read" else none)
          "/objects/b/k" "GET" = .next ∨
       WithValidation ["/health"] (fun b => if b = "b" then some "read" else none)
          "/objects/b/k" "GET" = .forbidden)) :=
  ⟨by decide, by decide,
    C4_accessPolicy_amended ["/health"] (fun b => if b = "b" then some "read" else none)
      "/objects/b/k" "GET" (by decide) (by decide)⟩

/-- C10: with access control enabled and a well-formed path (at least two
segments), a request whose bucket has no entry in `AllowedIPs` is rejected
with one of the two 403 responses — even when its method is listed in
`AllowedOperations` — and a request reaches the inner handler only when
both the operation check and the IP-prefix check succeed. -/
theorem C10_ipGate :
    (∀ (allowedOperations allowedIPs : String → Option (List String))
        (path method remoteAddr : String),
      2 ≤ (goSplitChar (goTrim path '/') '/').length →
      allowedIPs (firstSegment (goSplitChar (goTrim path '/') '/')) = none →
      (WithBucketAccessControl allowedOperations allowedIPs true path method remoteAddr
          = .forbiddenOp ∨
       WithBucketAccessControl allowedOperations allowedIPs true path method remoteAddr
          = .forbiddenIP)) ∧
    (∀ (allowedOperations allowedIPs : String → Option (List String))
        (path method remoteAddr : String),
      WithBucketAccessControl allowedOperations allowedIPs true path method remoteAddr
          = .next →
      isOperationAllowed allowedOperations
          (firstSegment (goSplitChar (goTrim path '/') '/')) method = true ∧
      isIPAllowed allowedIPs
          (firstSegment (goSplitChar (goTrim path '/') '/')) remoteAddr = true) := by
  constructor
  · intro ops ips path method addr h2 hip
    unfold WithBucketAccessControl
    rw [if_neg (by simp)]
    rw [if_neg (by omega : ¬(goSplitChar (goTrim path '/') '/').length < 2)]
    by_cases hop : isOperationAllowed ops (firstSegment (goSplitChar (goTrim path '/') '/'))
        method = true
    · right
      simp [hop, isIPAllowed, hip]
    · left
      simp only [Bool.not_eq_true] at hop
      simp [hop]
  · intro ops ips path method addr h
    unfold WithBucketAccessControl at h
    rw [if_neg (by simp)] at h
    by_cases hl : (goSplitChar (goTrim path '/') '/').length < 2
    · rw [if_pos hl] at h
      exact absurd h (by simp)
    · rw [if_neg hl] at h
      by_cases hop : isOperationAllowed ops (firstSegment (goSplitChar (goTrim path '/') '/'))
          method = true
      · by_cases hip : isIPAllowed ips (firstSegment (goSplitChar (goTrim path '/') '/'))
            addr = true
        · exact ⟨hop, hip⟩
        · simp only [Bool.not_eq_true] at hip
          simp [hop, hip] at h
      · simp only [Bool.not_eq_true] at hop
        simp [hop] at h

/-- C10 witness: bucket `b` lists GET but has no `AllowedIPs` entry; the
request is still rejected with a 403. -/
theorem C10_ipGate_witness :
    WithBucketAccessControl (fun b => if b = "b" then some ["GET"] else none)
        (fun _ => none) true "/b/k" "GET" "1.2.3.4:5" = .forbiddenOp ∨
    WithBucketAccessControl (fun b => if b = "b" then some ["GET"] else none)
        (fun _ => none) true "/b/k" "GET" "1.2.3.4:5" = .forbiddenIP :=
  C10_ipGate.1 (fun b => if b = "b" then some ["GET"] else none) (fun _ => none)
    "/b/k" "GET" "1.2.3.4:5" (by decide) (by decide)

end Estrois
